import Mathlib

/-!
Verification of the LodyLand reward/economy engine against its specification.

The Python sources are shallowly embedded as Lean definitions:
* floats are modelled as rationals (`ℚ`), with Python `round(x, n)`
  (round half to even) modelled exactly by `rnd n`;
* SQLAlchemy rows touched by the engine are explicit records, and the
  per-player session state is the record `GameState`;
* database queries that merely deliver rows (boost-card queries, content
  definitions) become list/association-list parameters of the functions
  that consume their results.
-/

namespace LodyLand

/-- Round half to even of a rational to an integer: the semantics of the
Python builtin `round` (banker's rounding). -/
def rndInt (x : ℚ) : ℤ :=
  if x - ⌊x⌋ < 1/2 then ⌊x⌋
  else if 1/2 < x - ⌊x⌋ then ⌊x⌋ + 1
  else if ⌊x⌋ % 2 = 0 then ⌊x⌋ else ⌊x⌋ + 1

/-- Python `round(x, n)` on our rational model of floats. -/
def rnd (n : ℕ) (x : ℚ) : ℚ :=
  (rndInt (x * 10 ^ n) : ℚ) / 10 ^ n

/-- One boost-card configuration as produced by the card helpers in
`app/routes/api_resources.py` (`_get_resource_boost_cards` and friends):
a dict with keys `qty` (the owned `PlayerCard.qty`), `type` and `amount`. -/
structure Boost where
  qty    : ℤ
  type   : String
  amount : ℚ
deriving Repr, DecidableEq

/-- Loop body of `_compute_collect_amount` / `_compute_xp_gain`
(api_resources.py): skip boosts with `qty <= 0`, `addition` multiplies by
`(1 + amount * qty)`, `multiplier` multiplies by `amount ** qty`, any other
type leaves the value unchanged. -/
def boostStep (value : ℚ) (b : Boost) : ℚ :=
  if b.qty ≤ 0 then value
  else if b.type = "addition" then value * (1 + b.amount * b.qty)
  else if b.type = "multiplier" then value * b.amount ^ b.qty.toNat
  else value

/-- `_compute_collect_amount` (api_resources.py, lines 349-382): base 1.0 run
through the owned `resource_boost` cards, rounded to 4 decimals.  The boost
list parameter stands for the result of `_get_resource_boost_cards`. -/
def computeCollectAmount (boosts : List Boost) : ℚ :=
  rnd 4 (boosts.foldl boostStep 1)

/-- `_compute_xp_gain` (api_resources.py, lines 385-412): the base XP run
through the owned `xp_boost` cards, rounded to 4 decimals. -/
def computeXpGain (baseXp : ℚ) (boosts : List Boost) : ℚ :=
  rnd 4 (boosts.foldl boostStep baseXp)

/-- Loop body of `_compute_cooldown` (api_resources.py): `reduction`
multiplies by `max(0.1, 1 - amount * qty)`, `multiplier` multiplies by
`amount ** qty`, boosts with `qty <= 0` are skipped. -/
def cooldownStep (cooldown : ℚ) (b : Boost) : ℚ :=
  if b.qty ≤ 0 then cooldown
  else if b.type = "reduction" then cooldown * max (1/10) (1 - b.amount * b.qty)
  else if b.type = "multiplier" then cooldown * b.amount ^ b.qty.toNat
  else cooldown

/-- `_compute_cooldown` (api_resources.py, lines 415-443).  The boost list
parameter stands for the result of `_get_cooldown_boost_cards`. -/
def computeCooldown (baseCooldown : ℚ) (boosts : List Boost) : ℚ :=
  rnd 4 (boosts.foldl cooldownStep baseCooldown)

/-- The per-modifier factor of the stacking law as the specification states
it (spec §4.3): modifiers with `qty <= 0` contribute nothing, an
addition-kind modifier contributes the factor `1 + amount * qty`, a
multiplier-kind modifier contributes `amount ** qty`. -/
def boostFactor (b : Boost) : ℚ :=
  if b.qty ≤ 0 then 1
  else if b.type = "addition" then 1 + b.amount * b.qty
  else if b.type = "multiplier" then b.amount ^ b.qty.toNat
  else 1

/-- Counterexample to C2 as stated: three stacked reduction modifiers of 60%
each (combined reduction 180% > 90%, and actual effective reduction 93.6%)
drive the computed cooldown to 0.064 of the base, below the claimed global
floor of 0.1 of the base, because `_compute_cooldown` clamps each reduction
factor separately rather than the whole stack. -/
def badCooldownMods : List Boost :=
  [⟨1, "reduction", 3/5⟩, ⟨1, "reduction", 3/5⟩, ⟨1, "reduction", 3/5⟩]

/-!  ## Progression engine (`app/progression.py`)

The per-player mutable state touched by the progression engine: the player
row (`xp`, `level`, `coins`, `diams`) together with the player's
`ResourceStock` and `PlayerCard` rows, the latter two as association lists
keyed by resource/card key (the tables have a uniqueness constraint on
`player_id × key`). -/
structure GameState where
  xp     : ℚ
  level  : ℤ
  coins  : ℤ
  diams  : ℤ
  stocks : List (String × ℚ)
  cards  : List (String × ℤ)
deriving Repr, DecidableEq

/-- Update an association list at a key, appending a fresh row when the key
is absent (the `if not row: session.add(row)` pattern of the source). -/
def upsert {α : Type} (l : List (String × α)) (k : String) (v : α) :
    List (String × α) :=
  match l with
  | [] => [(k, v)]
  | (k', v') :: rest => if k' = k then (k, v) :: rest else (k', v') :: upsert rest k v

/-- `_grant_resource` (progression.py, lines 111-141): no-op for an empty
key or a nonpositive amount, otherwise adds `amount` to the stock row
(creating it at qty 0 first).  NOTE: the written qty is not rounded. -/
def grantResource (st : GameState) (resourceKey : String) (amount : ℚ) :
    GameState :=
  if resourceKey = "" ∨ amount ≤ 0 then st
  else
    { st with stocks :=
        upsert st.stocks resourceKey (((st.stocks.lookup resourceKey).getD 0) + amount) }

/-- `_grant_card` (progression.py, lines 144-174). -/
def grantCard (st : GameState) (cardKey : String) (amount : ℤ) : GameState :=
  if cardKey = "" ∨ amount ≤ 0 then st
  else
    { st with cards :=
        upsert st.cards cardKey (((st.cards.lookup cardKey).getD 0) + amount) }

/-- One reward entry of a level in `levels.yml`, as read by
`apply_level_rewards`: the dicts `type: coins|diams|resource|card` with
their amount and key fields; `other` stands for any unrecognized type
(silently skipped by the source). -/
inductive RewardCfg where
  | coins (amount : ℤ)
  | diams (amount : ℤ)
  | resource (resourceKey : String) (amount : ℚ)
  | card (cardKey : String) (amount : ℤ)
  | other
deriving Repr, DecidableEq

/-- One level entry of `LEVELS` (progression.py): cumulative XP threshold
plus the ordered reward list. -/
structure LevelCfg where
  xpRequired : ℤ
  rewards    : List RewardCfg
deriving Repr, DecidableEq

/-- The `LEVELS` dict keyed by level.  Python iterates its keys with
`sorted(LEVELS.keys())`, so the list is taken sorted by key in the theorems
(`List.Pairwise (· < ·)` on the keys, which holds for any dict). -/
abbrev Config := List (ℤ × LevelCfg)

/-- Enabled `ResourceDef` display fields used by `apply_level_rewards`. -/
structure ResourceDefInfo where
  label : String
  icon  : Option String
deriving Repr, DecidableEq

/-- Enabled `CardDef` display fields used by `apply_level_rewards`. -/
structure CardDefInfo where
  cardLabel : String
  cardImage : Option String
deriving Repr, DecidableEq

/-- The in-memory caches of enabled resource/card definitions built at the
top of `apply_level_rewards`. -/
structure Env where
  resourceDefs : List (String × ResourceDefInfo)
  cardDefs     : List (String × CardDefInfo)
deriving Repr, DecidableEq

/-- One applied-reward dict as returned by `apply_level_rewards`, with the
`level` key that `apply_xp_and_level_up` adds afterwards (`none` until
annotated). -/
structure AppliedReward where
  rtype  : String
  key    : Option String
  amount : ℚ
  label  : String
  icon   : Option String
  level  : Option ℤ
deriving Repr, DecidableEq

/-- The applied-reward dict built for one reward entry (the `applied.append`
calls of `apply_level_rewards`); `none` for unrecognized reward types. -/
def rewardRecord (env : Env) (r : RewardCfg) : Option AppliedReward :=
  match r with
  | .coins a =>
    some ⟨"coins", none, (a : ℚ), "Coins", some "/static/GAME_UI/img/ui/coins.png", none⟩
  | .diams a =>
    some ⟨"diams", none, (a : ℚ), "Diams", some "/static/GAME_UI/img/ui/diams.png", none⟩
  | .resource k a =>
    some ⟨"resource", some k, a,
      (match env.resourceDefs.lookup k with
       | some rd => rd.label
       | none => k),
      (match env.resourceDefs.lookup k with
       | some rd => rd.icon
       | none => none), none⟩
  | .card k a =>
    some ⟨"card", some k, (a : ℚ),
      (match env.cardDefs.lookup k with
       | some cd => if cd.cardLabel = "" then k else cd.cardLabel
       | none => k),
      (match env.cardDefs.lookup k with
       | some cd => cd.cardImage
       | none => none), none⟩
  | .other => none

/-- The state mutation performed for one reward entry of
`apply_level_rewards`: coins/diams increment the player balance, resource
and card rewards go through the grant helpers, unknown types do nothing. -/
def rewardEffect (st : GameState) (r : RewardCfg) : GameState :=
  match r with
  | .coins a => { st with coins := st.coins + a }
  | .diams a => { st with diams := st.diams + a }
  | .resource k a => grantResource st k a
  | .card k a => grantCard st k a
  | .other => st

/-- `apply_level_rewards` (progression.py, lines 177-298): look up the level
config (`LEVELS.get(new_level)`, empty result list when missing) and fold
over its reward list in declaration order, mutating the state and
accumulating the applied-reward dicts. -/
def applyLevelRewards (env : Env) (cfg : Config) (st : GameState)
    (newLevel : ℤ) : GameState × List AppliedReward :=
  match cfg.lookup newLevel with
  | none => (st, [])
  | some lc =>
    lc.rewards.foldl
      (fun acc r => (rewardEffect acc.1 r, acc.2 ++ (rewardRecord env r).toList))
      (st, [])

/-- The reward list configured for a level (empty when the level is not in
the config). -/
def levelRewardCfgs (cfg : Config) (lvl : ℤ) : List RewardCfg :=
  match cfg.lookup lvl with
  | none => []
  | some lc => lc.rewards

/-- The applied-reward dicts a given level produces (independent of the
player state). -/
def levelRewardRecords (env : Env) (cfg : Config) (lvl : ℤ) :
    List AppliedReward :=
  (levelRewardCfgs cfg lvl).filterMap (rewardRecord env)

/-- Inner loop of `level_for_xp`: walk the (sorted) level entries, keep the
last level whose threshold is at most the XP, stop at the first level whose
threshold exceeds it (the `break`). -/
def levelForXpGo (xp : ℚ) : ℤ → Config → ℤ
  | lvl, [] => lvl
  | lvl, (l, c) :: rest =>
    if (c.xpRequired : ℚ) ≤ xp then levelForXpGo xp l rest else lvl

/-- `level_for_xp` (progression.py, lines 83-96), iterating the entries in
ascending key order starting from level 0. -/
def levelForXp (cfg : Config) (xp : ℚ) : ℤ :=
  levelForXpGo xp 0 cfg

/-- Python `range(a, b + 1)`: the integers `a, a+1, ..., b`. -/
def intRange (a b : ℤ) : List ℤ :=
  (List.range (b + 1 - a).toNat).map (fun i : ℕ => a + (i : ℤ))

/-- The `r["level"] = lvl` annotation of `apply_xp_and_level_up`. -/
def annotateLevel (lvl : ℤ) (r : AppliedReward) : AppliedReward :=
  { r with level := some lvl }

/-- The `player.xp = ...` assignment. -/
def setXp (st : GameState) (v : ℚ) : GameState := { st with xp := v }

/-- The `player.level = ...` assignment. -/
def setLevel (st : GameState) (v : ℤ) : GameState := { st with level := v }

/-- `apply_xp_and_level_up` (progression.py, lines 304-345): returns
`(level_up, new_level, all_rewards)` and (since our embedding is pure) the
updated state as a fourth component. -/
def applyXpAndLevelUp (env : Env) (cfg : Config) (st : GameState)
    (gainedXp : ℚ) : Bool × ℤ × List AppliedReward × GameState :=
  if gainedXp ≤ 0 then (false, st.level, [], st)
  else
    let st1 := setXp st (st.xp + gainedXp)
    let oldLevel := st1.level
    let newLevel := levelForXp cfg st1.xp
    if newLevel ≤ oldLevel then (false, oldLevel, [], st1)
    else
      let res := (intRange (oldLevel + 1) newLevel).foldl
        (fun acc lvl =>
          let pr := applyLevelRewards env cfg acc.1 lvl
          (pr.1, acc.2 ++ pr.2.map (annotateLevel lvl)))
        (st1, [])
      (true, newLevel, res.2, setLevel res.1 newLevel)

/-- Folding the state mutations of a list of levels (the multi-level loop of
`apply_xp_and_level_up`, state part only). -/
def applyLevels (env : Env) (cfg : Config) (levels : List ℤ)
    (st : GameState) : GameState :=
  levels.foldl (fun s lvl => (applyLevelRewards env cfg s lvl).1) st

/-- Running `apply_xp_and_level_up` once per XP grant in a list, collecting
all rewards (the "k separate calls" scenario of the spec). -/
def runCalls (env : Env) (cfg : Config) (st : GameState) (gs : List ℚ) :
    GameState × List AppliedReward :=
  match gs with
  | [] => (st, [])
  | g :: rest =>
    let r := applyXpAndLevelUp env cfg st g
    let rr := runCalls env cfg r.2.2.2 rest
    (rr.1, r.2.2.1 ++ rr.2)

/-- A concrete two-level config: 10 XP for level 1 (coins reward), 30 XP
for level 2 (card reward). -/
def cfgTwoLevels : Config :=
  [(1, ⟨10, [RewardCfg.coins 20]⟩), (2, ⟨30, [RewardCfg.card "land_forest" 1]⟩)]

/-- The fallback config of `_load_levels_from_yaml` (progression.py):
thresholds 10/30/60/100/150 for levels 1-5, no rewards. -/
def cfgFallback : Config :=
  [(1, ⟨10, []⟩), (2, ⟨30, []⟩), (3, ⟨60, []⟩), (4, ⟨100, []⟩), (5, ⟨150, []⟩)]

/-- An environment with no content definitions. -/
def envEmpty : Env := ⟨[], []⟩

/-- A fresh player state. -/
def stFresh : GameState := ⟨0, 0, 0, 0, [], []⟩

/-- A level-1 player with 12 XP. -/
def stLevelOne : GameState := ⟨12, 1, 0, 0, [], []⟩

/-!  ## Unlock rule evaluator (`app/unlock_rules.py`) -/
/-- The failure-info dicts the evaluator can produce: `{}`, the
`level_too_low` dict (with `required` and `current_level`), the
`not_enough_coins` dict (with `required` and `current_coins`) and the
`no_variant_matches` dict. -/
inductive Info where
  | empty
  | levelTooLow (required : ℤ) (currentLevel : ℤ)
  | notEnoughCoins (required : ℤ) (currentCoins : ℤ)
  | noVariantMatches
deriving Repr, DecidableEq

/-- The rule-tree values fed to `check_unlock_rules`: `null` stands for any
falsy spec (`None`, `{}`, `[]`), a dict with an `"all"` key, a dict with an
`"any"` key, a bare list (implicit AND), a leaf dict with `"type"` and
`"value"`, and `otherVal` for any other (truthy non-dict non-list) value. -/
inductive RuleSpec where
  | null
  | all (children : List RuleSpec)
  | anyOf (children : List RuleSpec)
  | listOf (children : List RuleSpec)
  | leaf (rtype : String) (value : ℤ)
  | otherVal
deriving Repr

/-- `_eval_simple_rule` (unlock_rules.py, lines 13-47); the player fields
`player.level or 0` and `player.coins or 0` are the `level`/`coins` of the
state (both columns are non-nullable with default 0). -/
def evalSimpleRule (p : GameState) (rtype : String) (value : ℤ) : Bool × Info :=
  if rtype = "level_at_least" then
    if p.level ≥ value then (true, .empty)
    else (false, .levelTooLow value p.level)
  else if rtype = "coins_at_least" then
    if p.coins ≥ value then (true, .empty)
    else (false, .notEnoughCoins value p.coins)
  else (true, .empty)

mutual

/-- `_eval_block` (unlock_rules.py, lines 50-97). -/
def evalBlock (p : GameState) : RuleSpec → Bool × Info
  | .null => (true, .empty)
  | .all cs => evalAll p cs
  | .anyOf cs => evalAny p cs .empty
  | .listOf cs => evalAll p cs
  | .leaf t v => evalSimpleRule p t v
  | .otherVal => (true, .empty)

/-- The AND loop of `_eval_block` (used both for the `"all"` key and for a
bare list): children in order, short-circuit on the first failure. -/
def evalAll (p : GameState) : List RuleSpec → Bool × Info
  | [] => (true, .empty)
  | c :: cs =>
    let r := evalBlock p c
    if r.1 then evalAll p cs else (false, r.2)

/-- The OR loop of `_eval_block`: children in order, short-circuit on the
first pass, threading `last_info` through the failures; at the end returns
`last_info or the no_variant_matches dict`. -/
def evalAny (p : GameState) : List RuleSpec → Info → Bool × Info
  | [], lastInfo => (false, if lastInfo = .empty then .noVariantMatches else lastInfo)
  | c :: cs, _lastInfo =>
    let r := evalBlock p c
    if r.1 then (true, .empty) else evalAny p cs r.2

end

/-- `check_unlock_rules` (unlock_rules.py, lines 100-111). -/
def checkUnlockRules (p : GameState) (rules : RuleSpec) : Bool × Info :=
  match rules with
  | .null => (true, .empty)
  | r => evalBlock p r

/-- The `last_info` value held after an `"any"` loop in which every child
failed: the last child's failure info (or `{}` for no children). -/
def lastFailInfo (p : GameState) (cs : List RuleSpec) : Info :=
  match cs.getLast? with
  | none => .empty
  | some c => (evalBlock p c).2

/-- The `last_info or {"reason": "no_variant_matches"}` fallback. -/
def infoOrNoVariant (i : Info) : Info :=
  if i = .empty then .noVariantMatches else i

/-!  ## Collect and unlock endpoints (`app/routes/api_resources.py`)

Timestamps are rationals (seconds); the boost-list parameters stand for the
results of the card-query helpers (`_get_xp_boost_cards`,
`_get_cooldown_boost_cards`, `_get_resource_boost_cards`), and the
resource-definition list stands for the enabled `ResourceDef` rows. -/
/-- One `Tile` row. -/
structure TileState where
  resource      : String
  locked        : Bool
  cooldownUntil : Option ℚ
deriving Repr, DecidableEq

/-- One `ResourceDef` row as consumed by the endpoints. -/
structure ResourceDefR where
  unlockMinLevel : ℤ
  baseCooldown   : ℚ
  unlockRules    : RuleSpec
  enabled        : Bool
deriving Repr

/-- `_get_res_def` (api_resources.py, lines 24-32): an enabled
`ResourceDef` by key, `None` for a missing/empty key or a disabled row. -/
def getResDef (resDefs : List (String × ResourceDefR)) (key : String) :
    Option ResourceDefR :=
  if key = "" then none
  else
    match resDefs.lookup key with
    | some rd => if rd.enabled then some rd else none
    | none => none

/-- One joined `(PlayerCard, CardDef)` row as read by
`_has_unlock_resource_card`: `pc.qty` together with
`getattr(cd, "type", None)` and `getattr(cd, "target_resource", None)`
(both reads default to `None` when the attribute is absent). -/
structure CardRow where
  qty            : ℤ
  type           : Option String
  targetResource : Option String
deriving Repr, DecidableEq

/-- `_has_unlock_resource_card` (api_resources.py, lines 129-152): true iff
some row has card type `unlock_resource`, the requested target resource and
positive quantity. -/
def hasUnlockResourceCard (rows : List CardRow) (resourceKey : String) : Bool :=
  rows.any fun r =>
    r.type == some "unlock_resource" && r.targetResource == some resourceKey &&
      decide (0 < r.qty)

/-- The result of the legacy tile branch of `collect`. -/
inductive TileCollectResult where
  | errLocked
  | errOnCooldown (untilTime : ℚ)
  | ok (next : ℚ) (levelUp : Bool) (levelRewards : List AppliedReward)
deriving Repr

/-- The fall-through body of the legacy tile branch of `collect`
(api_resources.py, lines 704-770), reached once the locked and cooldown
checks have passed: compute the effective cooldown and advance the tile,
grant boosted XP (level-ups included), then add the boosted yield to the
resource stock rounded to 2 decimals.  The quest-progress hook mutates the
separate quest subsystem only. -/
def collectTileGo (env : Env) (cfg : Config)
    (resDefs : List (String × ResourceDefR))
    (xpBoosts cdBoosts resBoosts : List Boost) (now : ℚ)
    (tile : TileState) (p : GameState) :
    TileCollectResult × TileState × GameState :=
  let baseCd :=
    match getResDef resDefs tile.resource with
    | some rd => rd.baseCooldown
    | none => 10
  let effCd := computeCooldown baseCd cdBoosts
  let next := now + effCd
  let tile' := { tile with cooldownUntil := some next }
  let pr := applyXpAndLevelUp env cfg p (computeXpGain 1 xpBoosts)
  let p1 := pr.2.2.2
  let p2 :=
    if tile.resource = "" then p1
    else
      let newQty :=
        ((p1.stocks.lookup tile.resource).getD 0) + computeCollectAmount resBoosts
      { p1 with stocks := upsert p1.stocks tile.resource (rnd 2 newQty) }
  (.ok next pr.1 pr.2.2.1, tile', p2)

/-- The legacy tile branch of `collect` (api_resources.py, lines 684-770):
reject a locked tile, reject with `on_cooldown` while `cooldown_until` lies
in the future, otherwise collect.  Rejections leave every row unchanged. -/
def collectTile (env : Env) (cfg : Config)
    (resDefs : List (String × ResourceDefR))
    (xpBoosts cdBoosts resBoosts : List Boost) (now : ℚ)
    (tile : TileState) (p : GameState) :
    TileCollectResult × TileState × GameState :=
  if tile.locked then (.errLocked, tile, p)
  else
    match tile.cooldownUntil with
    | some cd =>
      if now < cd then (.errOnCooldown cd, tile, p)
      else collectTileGo env cfg resDefs xpBoosts cdBoosts resBoosts now tile p
    | none => collectTileGo env cfg resDefs xpBoosts cdBoosts resBoosts now tile p

/-- The loot-application loop of the land branch of `collect`
(api_resources.py, lines 594-631): for each rolled loot entry, scale the
base amount by the per-resource collect amount and the land loot
multiplier, and add it to the stock rounded to 2 decimals.  `rawLoot` is
the outcome of `_roll_land_loot` (the random roll, resolved externally) and
`resBoostsOf` gives the `resource_boost` cards per resource key. -/
def landApplyLoot (resBoostsOf : String → List Boost) (landLootMult : ℚ)
    (p : GameState) (rawLoot : List (String × ℚ)) : GameState :=
  rawLoot.foldl
    (fun st entry =>
      let amount := entry.2 * computeCollectAmount (resBoostsOf entry.1) * landLootMult
      let newQty := ((st.stocks.lookup entry.1).getD 0) + amount
      { st with stocks := upsert st.stocks entry.1 (rnd 2 newQty) })
    p

/-- The result of `unlock_tile` (api_resources.py, lines 777-848). -/
inductive UnlockResult where
  | errResourceRequired
  | errResourceUnknownOrDisabled
  | errLevelTooLow (required : ℤ)
  | errConditionsNotMet (info : Info)
  | created (tile : TileState)
deriving Repr

/-- `unlock_tile` (api_resources.py, lines 777-848) after player
resolution, for an already-normalized resource key: resolve the enabled
resource definition, then either bypass all unlock conditions when the
player owns an `unlock_resource` card for this resource, or check
`unlock_min_level` and the unlock rules; on success create an unlocked tile
with no cooldown. -/
def unlockTile (resDefs : List (String × ResourceDefR)) (rows : List CardRow)
    (p : GameState) (resource : String) : UnlockResult :=
  if resource = "" then .errResourceRequired
  else
    match getResDef resDefs resource with
    | none => .errResourceUnknownOrDisabled
    | some rd =>
      if hasUnlockResourceCard rows resource then
        .created ⟨resource, false, none⟩
      else if p.level < rd.unlockMinLevel then
        .errLevelTooLow rd.unlockMinLevel
      else
        match checkUnlockRules p rd.unlockRules with
        | (true, _) => .created ⟨resource, false, none⟩
        | (false, info) => .errConditionsNotMet info

lemma boostStep_eq_mul_factor (v : ℚ) (b : Boost) :
    boostStep v b = v * boostFactor b := by
  unfold boostStep boostFactor
  split_ifs <;> ring

lemma foldl_boostStep (bs : List Boost) :
    ∀ v : ℚ, bs.foldl boostStep v = v * (bs.map boostFactor).prod := by
  induction bs with
  | nil => intro v; simp
  | cons b bs ih =>
    intro v
    simp only [List.foldl_cons, List.map_cons, List.prod_cons, ih,
      boostStep_eq_mul_factor]
    ring

lemma floor_le_rndInt (x : ℚ) : ⌊x⌋ ≤ rndInt x := by
  unfold rndInt; split_ifs <;> omega

lemma rndInt_le_floor_add_one (x : ℚ) : rndInt x ≤ ⌊x⌋ + 1 := by
  unfold rndInt; split_ifs <;> omega

lemma rndInt_mono {x y : ℚ} (h : x ≤ y) : rndInt x ≤ rndInt y := by
  rcases lt_or_le ⌊x⌋ ⌊y⌋ with hf | hf
  · have h1 := rndInt_le_floor_add_one x
    have h2 := floor_le_rndInt y
    omega
  · have hf' : ⌊x⌋ = ⌊y⌋ := le_antisymm (Int.floor_mono h) hf
    have hxy : x - ⌊x⌋ ≤ y - ⌊x⌋ := by linarith
    unfold rndInt
    rw [← hf']
    split_ifs <;> first | omega | linarith

lemma rnd_mono (n : ℕ) {x y : ℚ} (h : x ≤ y) : rnd n x ≤ rnd n y := by
  unfold rnd
  have hmul : x * 10 ^ n ≤ y * 10 ^ n :=
    mul_le_mul_of_nonneg_right h (by positivity)
  have hint : (rndInt (x * 10 ^ n) : ℚ) ≤ (rndInt (y * 10 ^ n) : ℚ) := by
    exact_mod_cast rndInt_mono hmul
  exact div_le_div_of_nonneg_right hint (by positivity)

/-- C1: `_compute_collect_amount` starts from base 1.0 and, processing the
modifiers in input order, multiplies the running value by the per-modifier
factor (1 for a skipped modifier with `qty <= 0`, `1 + amount * qty` for an
addition modifier, `amount ** qty` for a multiplier modifier), so the result
is the 4-decimal rounding of the product of all the factors; with an empty
modifier list it returns the base 1.0 unchanged. -/
theorem computeCollectAmount_stacking :
    (∀ boosts : List Boost,
        computeCollectAmount boosts = rnd 4 ((boosts.map boostFactor).prod)) ∧
    computeCollectAmount [] = 1 := by
  constructor
  · intro boosts
    unfold computeCollectAmount
    rw [foldl_boostStep]
    ring_nf
  · unfold computeCollectAmount
    simp only [List.foldl_nil]
    norm_num [rnd, rndInt]

/-- C2 (counterexample): a list of reduction-kind modifiers whose combined
reduction exceeds 90% for which the computed cooldown is strictly below
`0.1 * base`. -/
theorem computeCooldown_no_global_floor :
    (badCooldownMods.all fun b => b.type == "reduction") = true ∧
    (9/10 : ℚ) < (badCooldownMods.map fun b => b.amount * (b.qty : ℚ)).sum ∧
    computeCooldown 1 badCooldownMods < (1/10) * 1 := by
  refine ⟨by decide, by norm_num [badCooldownMods], ?_⟩
  norm_num [computeCooldown, cooldownStep, badCooldownMods, List.foldl,
    rnd, rndInt, max_def]

/-- C2 (amended): the 10% floor is applied to each reduction modifier
separately, so for a single reduction-kind modifier (any amount and any
stack size `qty`) and a nonnegative base cooldown the computed cooldown is
at least the 4-decimal rounding of `0.1 * base`. -/
theorem computeCooldown_floor_single_reduction (baseCooldown : ℚ) (b : Boost)
    (hbase : 0 ≤ baseCooldown) (hred : b.type = "reduction") :
    rnd 4 ((1/10) * baseCooldown) ≤ computeCooldown baseCooldown [b] := by
  unfold computeCooldown
  simp only [List.foldl_cons, List.foldl_nil]
  apply rnd_mono
  unfold cooldownStep
  rw [hred]
  simp only [reduceIte]
  split_ifs with h1
  · linarith
  · have hub : (1/10 : ℚ) ≤ max (1/10) (1 - b.amount * b.qty) := le_max_left _ _
    calc (1/10 : ℚ) * baseCooldown = baseCooldown * (1/10) := by ring
    _ ≤ baseCooldown * max (1/10) (1 - b.amount * b.qty) :=
        mul_le_mul_of_nonneg_left hub hbase

/-- Witness for the amended C2 at a concrete input: base 5, one reduction
card owned twice with amount 1/2 (a 100% combined reduction). -/
theorem computeCooldown_floor_single_reduction_witness :
    (0 : ℚ) ≤ 5 ∧ (Boost.mk 2 "reduction" (1/2)).type = "reduction" ∧
    rnd 4 ((1/10) * 5) ≤ computeCooldown 5 [Boost.mk 2 "reduction" (1/2)] :=
  ⟨by norm_num, rfl,
    computeCooldown_floor_single_reduction 5 (Boost.mk 2 "reduction" (1/2))
      (by norm_num) rfl⟩

lemma levelForXpGo_mem (xp : ℚ) (lvl : ℤ) (cfg : Config) :
    levelForXpGo xp lvl cfg = lvl ∨ levelForXpGo xp lvl cfg ∈ cfg.map Prod.fst := by
  induction cfg generalizing lvl with
  | nil => exact Or.inl rfl
  | cons e rest ih =>
    obtain ⟨l, c⟩ := e
    by_cases h : (c.xpRequired : ℚ) ≤ xp
    · rcases ih l with h' | h'
      · exact Or.inr (by simp [levelForXpGo, h, h'])
      · exact Or.inr (by simp only [levelForXpGo, if_pos h]; right; exact h')
    · exact Or.inl (by simp [levelForXpGo, h])

lemma levelForXpGo_ge (xp : ℚ) (lvl : ℤ) (cfg : Config)
    (h : ∀ k ∈ cfg.map Prod.fst, lvl ≤ k) : lvl ≤ levelForXpGo xp lvl cfg := by
  rcases levelForXpGo_mem xp lvl cfg with h' | h'
  · omega
  · exact h _ h'

lemma levelForXpGo_mono (cfg : Config) :
    ∀ lvl : ℤ, (cfg.map Prod.fst).Pairwise (· < ·) →
      (∀ k ∈ cfg.map Prod.fst, lvl ≤ k) →
      ∀ {x y : ℚ}, x ≤ y → levelForXpGo x lvl cfg ≤ levelForXpGo y lvl cfg := by
  induction cfg with
  | nil => intro lvl _ _ x y _; exact le_refl _
  | cons e rest ih =>
    intro lvl hsort hlb x y hxy
    obtain ⟨l, c⟩ := e
    simp only [List.map_cons, List.pairwise_cons] at hsort
    have hlrest : ∀ k ∈ rest.map Prod.fst, l ≤ k := fun k hk => (hsort.1 k hk).le
    by_cases hx : (c.xpRequired : ℚ) ≤ x
    · have hy : (c.xpRequired : ℚ) ≤ y := hx.trans hxy
      simp only [levelForXpGo, if_pos hx, if_pos hy]
      exact ih l hsort.2 hlrest hxy
    · by_cases hy : (c.xpRequired : ℚ) ≤ y
      · simp only [levelForXpGo, if_neg hx, if_pos hy]
        have h1 : lvl ≤ l := hlb l (by simp)
        have h2 : l ≤ levelForXpGo y l rest := levelForXpGo_ge y l rest hlrest
        omega
      · simp only [levelForXpGo, if_neg hx, if_neg hy]
        exact le_refl _

/-- Monotonicity of `level_for_xp` for a sorted config with nonnegative
level keys. -/
lemma levelForXp_mono (cfg : Config)
    (hsort : (cfg.map Prod.fst).Pairwise (· < ·))
    (hkeys : ∀ k ∈ cfg.map Prod.fst, 0 ≤ k)
    {x y : ℚ} (h : x ≤ y) : levelForXp cfg x ≤ levelForXp cfg y :=
  levelForXpGo_mono cfg 0 hsort hkeys h

@[simp] lemma setXp_xp (st : GameState) (v : ℚ) : (setXp st v).xp = v := rfl

@[simp] lemma setXp_level (st : GameState) (v : ℚ) : (setXp st v).level = st.level := rfl

@[simp] lemma setLevel_level (st : GameState) (v : ℤ) : (setLevel st v).level = v := rfl

@[simp] lemma setLevel_xp (st : GameState) (v : ℤ) : (setLevel st v).xp = st.xp := rfl

lemma setLevel_self (st : GameState) : setLevel st st.level = st := rfl

lemma rewardEffect_setXp (st : GameState) (v : ℚ) (r : RewardCfg) :
    rewardEffect (setXp st v) r = setXp (rewardEffect st r) v := by
  cases r <;> simp only [rewardEffect, grantResource, grantCard, setXp] <;>
    split_ifs <;> rfl

lemma rewardEffect_setLevel (st : GameState) (v : ℤ) (r : RewardCfg) :
    rewardEffect (setLevel st v) r = setLevel (rewardEffect st r) v := by
  cases r <;> simp only [rewardEffect, grantResource, grantCard, setLevel] <;>
    split_ifs <;> rfl

lemma foldl_rewardEffect_setXp (rs : List RewardCfg) :
    ∀ (st : GameState) (v : ℚ),
      rs.foldl rewardEffect (setXp st v) = setXp (rs.foldl rewardEffect st) v := by
  induction rs with
  | nil => intro st v; rfl
  | cons r rest ih =>
    intro st v
    rw [List.foldl_cons, List.foldl_cons, rewardEffect_setXp, ih]

lemma foldl_rewardEffect_setLevel (rs : List RewardCfg) :
    ∀ (st : GameState) (v : ℤ),
      rs.foldl rewardEffect (setLevel st v) = setLevel (rs.foldl rewardEffect st) v := by
  induction rs with
  | nil => intro st v; rfl
  | cons r rest ih =>
    intro st v
    rw [List.foldl_cons, List.foldl_cons, rewardEffect_setLevel, ih]

lemma foldl_reward_pair (env : Env) (rs : List RewardCfg) :
    ∀ (st : GameState) (acc : List AppliedReward),
      rs.foldl
        (fun acc r => (rewardEffect acc.1 r, acc.2 ++ (rewardRecord env r).toList))
        (st, acc)
      = (rs.foldl rewardEffect st, acc ++ rs.filterMap (rewardRecord env)) := by
  induction rs with
  | nil => intro st acc; simp
  | cons r rest ih =>
    intro st acc
    simp only [List.foldl_cons, List.filterMap_cons]
    rw [ih]
    cases rewardRecord env r <;> simp

lemma applyLevelRewards_eq (env : Env) (cfg : Config) (st : GameState) (lvl : ℤ) :
    applyLevelRewards env cfg st lvl =
      ((levelRewardCfgs cfg lvl).foldl rewardEffect st,
        levelRewardRecords env cfg lvl) := by
  unfold applyLevelRewards levelRewardRecords levelRewardCfgs
  cases h : cfg.lookup lvl with
  | none => rfl
  | some lc =>
    dsimp only
    rw [foldl_reward_pair]
    simp

lemma applyLevels_cons (env : Env) (cfg : Config) (l : ℤ) (rest : List ℤ)
    (st : GameState) :
    applyLevels env cfg (l :: rest) st =
      applyLevels env cfg rest (applyLevelRewards env cfg st l).1 := rfl

lemma applyLevelRewards_fst_setXp (env : Env) (cfg : Config) (st : GameState)
    (v : ℚ) (l : ℤ) :
    (applyLevelRewards env cfg (setXp st v) l).1 =
      setXp (applyLevelRewards env cfg st l).1 v := by
  rw [applyLevelRewards_eq, applyLevelRewards_eq]
  exact foldl_rewardEffect_setXp _ st v

lemma applyLevelRewards_fst_setLevel (env : Env) (cfg : Config) (st : GameState)
    (v : ℤ) (l : ℤ) :
    (applyLevelRewards env cfg (setLevel st v) l).1 =
      setLevel (applyLevelRewards env cfg st l).1 v := by
  rw [applyLevelRewards_eq, applyLevelRewards_eq]
  exact foldl_rewardEffect_setLevel _ st v

lemma applyLevels_setXp (env : Env) (cfg : Config) (ls : List ℤ) :
    ∀ (st : GameState) (v : ℚ),
      applyLevels env cfg ls (setXp st v) = setXp (applyLevels env cfg ls st) v := by
  induction ls with
  | nil => intro st v; rfl
  | cons l rest ih =>
    intro st v
    rw [applyLevels_cons, applyLevels_cons, applyLevelRewards_fst_setXp, ih]

lemma applyLevels_setLevel (env : Env) (cfg : Config) (ls : List ℤ) :
    ∀ (st : GameState) (v : ℤ),
      applyLevels env cfg ls (setLevel st v) = setLevel (applyLevels env cfg ls st) v := by
  induction ls with
  | nil => intro st v; rfl
  | cons l rest ih =>
    intro st v
    rw [applyLevels_cons, applyLevels_cons, applyLevelRewards_fst_setLevel, ih]

lemma rangeFold (env : Env) (cfg : Config) (ls : List ℤ) :
    ∀ (st : GameState) (acc : List AppliedReward),
      ls.foldl
        (fun acc lvl =>
          let pr := applyLevelRewards env cfg acc.1 lvl
          (pr.1, acc.2 ++ pr.2.map (annotateLevel lvl)))
        (st, acc)
      = (applyLevels env cfg ls st,
          acc ++ ls.flatMap
            (fun l => (levelRewardRecords env cfg l).map (annotateLevel l))) := by
  induction ls with
  | nil => intro st acc; simp [applyLevels]
  | cons l rest ih =>
    intro st acc
    simp only [List.foldl_cons, List.flatMap_cons]
    rw [ih]
    simp [applyLevels, applyLevelRewards_eq]

@[simp] lemma setXp_setXp (st : GameState) (a b : ℚ) :
    setXp (setXp st a) b = setXp st b := rfl

@[simp] lemma setLevel_setLevel (st : GameState) (a b : ℤ) :
    setLevel (setLevel st a) b = setLevel st b := rfl

lemma setXp_setLevel (st : GameState) (n : ℤ) (v : ℚ) :
    setXp (setLevel st n) v = setLevel (setXp st v) n := rfl

lemma setXp_self (st : GameState) : setXp st st.xp = st := rfl

lemma intRange_nil (a b : ℤ) (h : b < a) : intRange a b = [] := by
  unfold intRange
  rw [show (b + 1 - a).toNat = 0 by omega]
  rfl

lemma intRange_append (a b c : ℤ) (hab : a ≤ b + 1) (hbc : b ≤ c) :
    intRange a b ++ intRange (b + 1) c = intRange a c := by
  unfold intRange
  rw [show c + 1 - (b + 1) = c - b by ring]
  rw [show (c + 1 - a).toNat = (b + 1 - a).toNat + (c - b).toNat by omega]
  rw [List.range_add, List.map_append, List.map_map]
  congr 1
  refine List.map_congr_left fun i _ => ?_
  have hcast : ((b + 1 - a).toNat : ℤ) = b + 1 - a := Int.toNat_of_nonneg (by omega)
  simp only [Function.comp_apply]
  push_cast [hcast]
  ring

lemma applyLevels_append (env : Env) (cfg : Config) (A B : List ℤ)
    (st : GameState) :
    applyLevels env cfg (A ++ B) st = applyLevels env cfg B (applyLevels env cfg A st) := by
  unfold applyLevels
  rw [List.foldl_append]

lemma applyXp_nonpos (env : Env) (cfg : Config) (st : GameState) (g : ℚ)
    (hg : g ≤ 0) : applyXpAndLevelUp env cfg st g = (false, st.level, [], st) := by
  unfold applyXpAndLevelUp
  rw [if_pos hg]

lemma applyXp_pos (env : Env) (cfg : Config) (st : GameState) (g : ℚ)
    (hg : 0 < g) (hle : st.level ≤ levelForXp cfg (st.xp + g)) :
    applyXpAndLevelUp env cfg st g =
      (decide (st.level < levelForXp cfg (st.xp + g)),
       levelForXp cfg (st.xp + g),
       (intRange (st.level + 1) (levelForXp cfg (st.xp + g))).flatMap
         (fun l => (levelRewardRecords env cfg l).map (annotateLevel l)),
       setLevel
         (setXp
            (applyLevels env cfg
              (intRange (st.level + 1) (levelForXp cfg (st.xp + g))) st)
            (st.xp + g))
         (levelForXp cfg (st.xp + g))) := by
  unfold applyXpAndLevelUp
  rw [if_neg (not_le.mpr hg)]
  dsimp only [setXp_level, setXp_xp]
  rcases lt_or_eq_of_le hle with hlt | heq
  · rw [if_neg (not_le.mpr hlt), rangeFold]
    dsimp only
    rw [applyLevels_setXp, decide_eq_true hlt, List.nil_append]
  · rw [← heq, if_pos le_rfl, decide_eq_false (lt_irrefl st.level),
      intRange_nil (st.level + 1) st.level (by omega)]
    rfl

/-- Canonical form of `apply_xp_and_level_up` for a nonnegative XP gain on a
state satisfying the level invariant: xp increases by the gain, the level
becomes `level_for_xp` of the new xp, rewards are the annotated reward lists
of the crossed levels in ascending order. -/
lemma applyXp_canonical (env : Env) (cfg : Config) (st : GameState) (g : ℚ)
    (hsort : (cfg.map Prod.fst).Pairwise (· < ·))
    (hkeys : ∀ k ∈ cfg.map Prod.fst, 0 ≤ k)
    (hinv : st.level = levelForXp cfg st.xp) (hg : 0 ≤ g) :
    applyXpAndLevelUp env cfg st g =
      (decide (st.level < levelForXp cfg (st.xp + g)),
       levelForXp cfg (st.xp + g),
       (intRange (st.level + 1) (levelForXp cfg (st.xp + g))).flatMap
         (fun l => (levelRewardRecords env cfg l).map (annotateLevel l)),
       setLevel
         (setXp
            (applyLevels env cfg
              (intRange (st.level + 1) (levelForXp cfg (st.xp + g))) st)
            (st.xp + g))
         (levelForXp cfg (st.xp + g))) := by
  rcases lt_or_eq_of_le hg with hgpos | hgz
  · exact applyXp_pos env cfg st g hgpos
      (by rw [hinv]; exact levelForXp_mono cfg hsort hkeys (by linarith))
  · rw [← hgz, add_zero, applyXp_nonpos env cfg st 0 le_rfl, ← hinv,
      decide_eq_false (lt_irrefl st.level),
      intRange_nil (st.level + 1) st.level (by omega)]
    rfl

/-- The level invariant `player.level == level_for_xp(player.xp)` is
preserved by `apply_xp_and_level_up` (any gain, sorted nonnegative-key
config). -/
lemma applyXp_preserves_invariant (env : Env) (cfg : Config) (st : GameState)
    (g : ℚ) (hsort : (cfg.map Prod.fst).Pairwise (· < ·))
    (hkeys : ∀ k ∈ cfg.map Prod.fst, 0 ≤ k)
    (hinv : st.level = levelForXp cfg st.xp) :
    ((applyXpAndLevelUp env cfg st g).2.2.2).level =
      levelForXp cfg ((applyXpAndLevelUp env cfg st g).2.2.2).xp := by
  rcases le_or_lt g 0 with hg | hg
  · rw [applyXp_nonpos env cfg st g hg]
    exact hinv
  · rw [applyXp_canonical env cfg st g hsort hkeys hinv hg.le]
    simp only [setLevel_level, setLevel_xp, setXp_xp]

/-- Composing two nonnegative XP grants equals granting their sum: the final
states agree and the reward lists concatenate. -/
lemma applyXp_twice (env : Env) (cfg : Config) (st : GameState) (g1 g2 : ℚ)
    (hsort : (cfg.map Prod.fst).Pairwise (· < ·))
    (hkeys : ∀ k ∈ cfg.map Prod.fst, 0 ≤ k)
    (hinv : st.level = levelForXp cfg st.xp) (hg1 : 0 ≤ g1) (hg2 : 0 ≤ g2) :
    (applyXpAndLevelUp env cfg (applyXpAndLevelUp env cfg st g1).2.2.2 g2).2.2.2 =
      (applyXpAndLevelUp env cfg st (g1 + g2)).2.2.2 ∧
    (applyXpAndLevelUp env cfg st g1).2.2.1 ++
        (applyXpAndLevelUp env cfg (applyXpAndLevelUp env cfg st g1).2.2.2 g2).2.2.1 =
      (applyXpAndLevelUp env cfg st (g1 + g2)).2.2.1 := by
  rw [applyXp_canonical env cfg st g1 hsort hkeys hinv hg1]
  dsimp only
  have hinv1 :
      (setLevel
          (setXp
            (applyLevels env cfg
              (intRange (st.level + 1) (levelForXp cfg (st.xp + g1))) st)
            (st.xp + g1))
          (levelForXp cfg (st.xp + g1))).level =
        levelForXp cfg
          ((setLevel
              (setXp
                (applyLevels env cfg
                  (intRange (st.level + 1) (levelForXp cfg (st.xp + g1))) st)
                (st.xp + g1))
              (levelForXp cfg (st.xp + g1))).xp) := by
    simp only [setLevel_level, setLevel_xp, setXp_xp]
  rw [applyXp_canonical env cfg _ g2 hsort hkeys hinv1 hg2]
  rw [applyXp_canonical env cfg st (g1 + g2) hsort hkeys hinv (by linarith)]
  simp only [setLevel_level, setLevel_xp, setXp_xp]
  rw [show st.xp + g1 + g2 = st.xp + (g1 + g2) by ring]
  have hon1 : st.level ≤ levelForXp cfg (st.xp + g1) := by
    rw [hinv]; exact levelForXp_mono cfg hsort hkeys (by linarith)
  have hn12 : levelForXp cfg (st.xp + g1) ≤ levelForXp cfg (st.xp + (g1 + g2)) :=
    levelForXp_mono cfg hsort hkeys (by linarith)
  constructor
  · rw [applyLevels_setLevel, applyLevels_setXp, setXp_setLevel, setXp_setXp,
      setLevel_setLevel, ← applyLevels_append,
      intRange_append (st.level + 1) (levelForXp cfg (st.xp + g1))
        (levelForXp cfg (st.xp + (g1 + g2))) (by omega) hn12]
  · rw [← List.flatMap_append,
      intRange_append (st.level + 1) (levelForXp cfg (st.xp + g1))
        (levelForXp cfg (st.xp + (g1 + g2))) (by omega) hn12]

/-- Splitting an XP grant into any sequence of positive grants yields the
same final state and the same concatenated reward list as one call with the
total. -/
lemma runCalls_eq_single (env : Env) (cfg : Config)
    (hsort : (cfg.map Prod.fst).Pairwise (· < ·))
    (hkeys : ∀ k ∈ cfg.map Prod.fst, 0 ≤ k) (gs : List ℚ) :
    ∀ st : GameState, st.level = levelForXp cfg st.xp → (∀ g ∈ gs, 0 < g) →
      runCalls env cfg st gs =
        ((applyXpAndLevelUp env cfg st gs.sum).2.2.2,
          (applyXpAndLevelUp env cfg st gs.sum).2.2.1) := by
  induction gs with
  | nil =>
    intro st hinv _
    simp only [runCalls, List.sum_nil]
    rw [applyXp_nonpos env cfg st 0 le_rfl]
  | cons g rest ih =>
    intro st hinv hpos
    have hg : 0 < g := hpos g (List.mem_cons_self g rest)
    have hrest : ∀ x ∈ rest, 0 < x := fun x hx => hpos x (List.mem_cons_of_mem g hx)
    have hsum : 0 ≤ rest.sum := List.sum_nonneg fun x hx => (hrest x hx).le
    have hinv1 := applyXp_preserves_invariant env cfg st g hsort hkeys hinv
    simp only [runCalls]
    rw [ih _ hinv1 hrest, List.sum_cons]
    obtain ⟨hstate, hrew⟩ :=
      applyXp_twice env cfg st g rest.sum hsort hkeys hinv hg.le hsum
    exact congrArg₂ Prod.mk hstate hrew

/-- C3: when `apply_xp_and_level_up` is given a positive gain, it applies
the configured reward list of every integer level from `old_level + 1`
through `new_level` inclusive, each exactly once and in declaration order
(the reward records are the concatenation, over the ascending crossed-level
range, of each level's configured records annotated with that level, and
the state receives exactly those levels' effects once each); consequently
granting XP in one call or split across any sequence of positive calls
yields the same final state and the same total rewards.  The config
hypotheses hold for every `LEVELS` dict: Python iterates its distinct keys
sorted, and level keys are nonnegative integers. -/
theorem applyXp_multi_level_rewards (env : Env) (cfg : Config)
    (st : GameState) (g : ℚ) (gs : List ℚ)
    (hsort : (cfg.map Prod.fst).Pairwise (· < ·))
    (hkeys : ∀ k ∈ cfg.map Prod.fst, 0 ≤ k)
    (hinv : st.level = levelForXp cfg st.xp)
    (hg : 0 < g) (hgs : ∀ x ∈ gs, 0 < x) :
    (applyXpAndLevelUp env cfg st g).2.2.1 =
      (intRange (st.level + 1) (levelForXp cfg (st.xp + g))).flatMap
        (fun l => (levelRewardRecords env cfg l).map (annotateLevel l)) ∧
    (applyXpAndLevelUp env cfg st g).2.2.2 =
      setLevel
        (setXp
          (applyLevels env cfg
            (intRange (st.level + 1) (levelForXp cfg (st.xp + g))) st)
          (st.xp + g))
        (levelForXp cfg (st.xp + g)) ∧
    runCalls env cfg st gs =
      ((applyXpAndLevelUp env cfg st gs.sum).2.2.2,
        (applyXpAndLevelUp env cfg st gs.sum).2.2.1) := by
  refine ⟨?_, ?_, runCalls_eq_single env cfg hsort hkeys gs st hinv hgs⟩
  · rw [applyXp_canonical env cfg st g hsort hkeys hinv hg.le]
  · rw [applyXp_canonical env cfg st g hsort hkeys hinv hg.le]

/-- Witness for C3 at a concrete input: the two-level config, a fresh
player, 35 XP granted at once versus split as 10 + 25. -/
theorem applyXp_multi_level_rewards_witness :
    ((cfgTwoLevels.map Prod.fst).Pairwise (· < ·) ∧
      stFresh.level = levelForXp cfgTwoLevels stFresh.xp ∧
      (0 : ℚ) < 35 ∧ (∀ x ∈ ([10, 25] : List ℚ), 0 < x)) ∧
    ((applyXpAndLevelUp envEmpty cfgTwoLevels stFresh 35).2.2.1 =
      (intRange (stFresh.level + 1) (levelForXp cfgTwoLevels (stFresh.xp + 35))).flatMap
        (fun l => (levelRewardRecords envEmpty cfgTwoLevels l).map (annotateLevel l)) ∧
    (applyXpAndLevelUp envEmpty cfgTwoLevels stFresh 35).2.2.2 =
      setLevel
        (setXp
          (applyLevels envEmpty cfgTwoLevels
            (intRange (stFresh.level + 1) (levelForXp cfgTwoLevels (stFresh.xp + 35)))
            stFresh)
          (stFresh.xp + 35))
        (levelForXp cfgTwoLevels (stFresh.xp + 35)) ∧
    runCalls envEmpty cfgTwoLevels stFresh [10, 25] =
      ((applyXpAndLevelUp envEmpty cfgTwoLevels stFresh ([10, 25] : List ℚ).sum).2.2.2,
        (applyXpAndLevelUp envEmpty cfgTwoLevels stFresh ([10, 25] : List ℚ).sum).2.2.1)) :=
  ⟨⟨by decide, by decide, by decide, by decide⟩,
    applyXp_multi_level_rewards envEmpty cfgTwoLevels stFresh 35 [10, 25]
      (by decide) (by decide) (by decide) (by decide) (by decide)⟩

/-- C5: the invariant `level == level_for_xp(xp)` is preserved by
`apply_xp_and_level_up` for every player state satisfying it on entry and
every gained XP (the config hypotheses hold for every `LEVELS` dict:
Python iterates its distinct keys sorted, and level keys are nonnegative
integers). -/
theorem applyXp_invariant_preserved (env : Env) (cfg : Config)
    (st : GameState) (g : ℚ)
    (hsort : (cfg.map Prod.fst).Pairwise (· < ·))
    (hkeys : ∀ k ∈ cfg.map Prod.fst, 0 ≤ k)
    (hinv : st.level = levelForXp cfg st.xp) :
    ((applyXpAndLevelUp env cfg st g).2.2.2).level =
      levelForXp cfg ((applyXpAndLevelUp env cfg st g).2.2.2).xp :=
  applyXp_preserves_invariant env cfg st g hsort hkeys hinv

/-- Witness for C5 at a concrete input: the fallback config and a level-1
player with 12 XP gaining 50 XP. -/
theorem applyXp_invariant_preserved_witness :
    ((cfgFallback.map Prod.fst).Pairwise (· < ·) ∧
      stLevelOne.level = levelForXp cfgFallback stLevelOne.xp) ∧
    ((applyXpAndLevelUp envEmpty cfgFallback stLevelOne 50).2.2.2).level =
      levelForXp cfgFallback
        ((applyXpAndLevelUp envEmpty cfgFallback stLevelOne 50).2.2.2).xp :=
  ⟨⟨by decide, by decide⟩,
    applyXp_invariant_preserved envEmpty cfgFallback stLevelOne 50
      (by decide) (by decide) (by decide)⟩

/-- C7: `level_for_xp` is monotone in the XP argument for every fixed level
threshold configuration (sorted-by-key iteration with nonnegative level
keys, as holds for every `LEVELS` dict of nonnegative levels). -/
theorem levelForXp_monotone (cfg : Config) (xp1 xp2 : ℚ)
    (hsort : (cfg.map Prod.fst).Pairwise (· < ·))
    (hkeys : ∀ k ∈ cfg.map Prod.fst, 0 ≤ k)
    (h : xp1 ≤ xp2) : levelForXp cfg xp1 ≤ levelForXp cfg xp2 :=
  levelForXp_mono cfg hsort hkeys h

/-- Witness for C7 at a concrete input: the fallback thresholds with
xp1 = 25 and xp2 = 60. -/
theorem levelForXp_monotone_witness :
    ((cfgFallback.map Prod.fst).Pairwise (· < ·) ∧ (25 : ℚ) ≤ 60) ∧
    levelForXp cfgFallback 25 ≤ levelForXp cfgFallback 60 :=
  ⟨⟨by decide, by decide⟩,
    levelForXp_monotone cfgFallback 25 60 (by decide) (by decide) (by decide)⟩

lemma evalAll_eq_find (p : GameState) (cs : List RuleSpec) :
    evalAll p cs =
      match cs.find? (fun c => !(evalBlock p c).1) with
      | some c => (false, (evalBlock p c).2)
      | none => (true, Info.empty) := by
  induction cs with
  | nil => rfl
  | cons c cs ih =>
    cases h : (evalBlock p c).1 with
    | true =>
      simp only [evalAll, h, List.find?_cons, Bool.not_true, if_true]
      exact ih
    | false =>
      simp only [evalAll, h, List.find?_cons, Bool.not_false, Bool.false_eq_true,
        if_false]

lemma lastFailInfo_cons (p : GameState) (c : RuleSpec) (cs : List RuleSpec) :
    lastFailInfo p (c :: cs) =
      match cs with
      | [] => (evalBlock p c).2
      | _ :: _ => lastFailInfo p cs := by
  cases cs with
  | nil => rfl
  | cons c' cs' => simp [lastFailInfo, List.getLast?_cons_cons]

lemma evalAny_eq_find (p : GameState) (cs : List RuleSpec) :
    ∀ acc : Info,
      evalAny p cs acc =
        match cs.find? (fun c => (evalBlock p c).1) with
        | some _ => (true, Info.empty)
        | none =>
          (false,
            infoOrNoVariant
              (match cs.getLast? with
               | none => acc
               | some c => (evalBlock p c).2)) := by
  induction cs with
  | nil => intro acc; rfl
  | cons c cs ih =>
    intro acc
    cases h : (evalBlock p c).1 with
    | true => simp only [evalAny, h, List.find?_cons, if_true]
    | false =>
      simp only [evalAny, h, List.find?_cons, Bool.false_eq_true, if_false]
      rw [ih]
      cases hfind : cs.find? (fun c => (evalBlock p c).1) with
      | some c' => rfl
      | none =>
        cases cs with
        | nil => rfl
        | cons c' cs' =>
          cases hl : (c' :: cs').getLast? with
          | none => simp at hl
          | some x => rw [List.getLast?_cons_cons, hl]

/-- C4: the unlock-rule evaluator returns `(True, {})` for a null/empty
rule tree; a bare list evaluates exactly like an `"all"` dict; an `"all"`
dict evaluates its children in order, short-circuits on the first failing
child returning that child's failure info, and returns `(True, {})` when
all pass (stated via `List.find?` over the children); an `"any"` dict
returns `(True, {})` on the first passing child and otherwise
`(False, last child's failure info or the no_variant_matches dict)`; a
`level_at_least` leaf passes iff `player.level >= value` with
`level_too_low` failure info, a `coins_at_least` leaf passes iff
`player.coins >= value` with `not_enough_coins` failure info; and the
concrete tree `any [level_at_least 99, coins_at_least 0]` passes for every
player with nonnegative coins. -/
theorem checkUnlockRules_spec (p : GameState) :
    checkUnlockRules p .null = (true, Info.empty) ∧
    (∀ cs, evalBlock p (.listOf cs) = evalBlock p (.all cs)) ∧
    (∀ cs, evalBlock p (.all cs) =
      match cs.find? (fun c => !(evalBlock p c).1) with
      | some c => (false, (evalBlock p c).2)
      | none => (true, Info.empty)) ∧
    (∀ cs, evalBlock p (.anyOf cs) =
      match cs.find? (fun c => (evalBlock p c).1) with
      | some _ => (true, Info.empty)
      | none => (false, infoOrNoVariant (lastFailInfo p cs))) ∧
    (∀ v, evalBlock p (.leaf "level_at_least" v) =
      if p.level ≥ v then (true, Info.empty)
      else (false, Info.levelTooLow v p.level)) ∧
    (∀ v, evalBlock p (.leaf "coins_at_least" v) =
      if p.coins ≥ v then (true, Info.empty)
      else (false, Info.notEnoughCoins v p.coins)) ∧
    (0 ≤ p.coins →
      checkUnlockRules p
          (.anyOf [.leaf "level_at_least" 99, .leaf "coins_at_least" 0]) =
        (true, Info.empty)) := by
  refine ⟨rfl, fun cs => by simp only [evalBlock], fun cs => ?_, fun cs => ?_,
    fun v => ?_, fun v => ?_, fun hc => ?_⟩
  · rw [show evalBlock p (.all cs) = evalAll p cs from by simp only [evalBlock]]
    exact evalAll_eq_find p cs
  · rw [show evalBlock p (.anyOf cs) = evalAny p cs .empty from by
      simp only [evalBlock]]
    rw [evalAny_eq_find]
    rfl
  · rw [show evalBlock p (.leaf "level_at_least" v) =
        evalSimpleRule p "level_at_least" v from by simp only [evalBlock]]
    unfold evalSimpleRule
    rw [if_pos rfl]
  · rw [show evalBlock p (.leaf "coins_at_least" v) =
        evalSimpleRule p "coins_at_least" v from by simp only [evalBlock]]
    unfold evalSimpleRule
    rw [if_neg (by decide), if_pos rfl]
  · by_cases h : p.level ≥ 99
    · simp [checkUnlockRules, evalBlock, evalAny, evalSimpleRule, h]
    · simp [checkUnlockRules, evalBlock, evalAny, evalSimpleRule, h,
        ge_iff_le, hc]

/-- Witness for C4 at a concrete input: a level-3 player with 5 coins;
`all [level_at_least 5]` fails with `level_too_low`, and the
`any [level_at_least 99, coins_at_least 0]` tree passes. -/
theorem checkUnlockRules_spec_witness :
    (0 : ℤ) ≤ (GameState.mk 0 3 5 0 [] []).coins ∧
    checkUnlockRules (GameState.mk 0 3 5 0 [] [])
        (.all [.leaf "level_at_least" 5]) = (false, Info.levelTooLow 5 3) ∧
    checkUnlockRules (GameState.mk 0 3 5 0 [] [])
        (.anyOf [.leaf "level_at_least" 99, .leaf "coins_at_least" 0]) =
      (true, Info.empty) :=
  ⟨by decide, by decide,
    (checkUnlockRules_spec (GameState.mk 0 3 5 0 [] [])).2.2.2.2.2.2 (by decide)⟩

/-- C9: a leaf rule whose type is neither `level_at_least` nor
`coins_at_least` is treated as passing: for every player, evaluating such a
leaf returns `(True, {})`. -/
theorem evalSimpleRule_unknown_passes (p : GameState) (rtype : String) (v : ℤ)
    (h1 : rtype ≠ "level_at_least") (h2 : rtype ≠ "coins_at_least") :
    evalSimpleRule p rtype v = (true, Info.empty) := by
  unfold evalSimpleRule
  rw [if_neg h1, if_neg h2]

/-- Witness for C9 at a concrete input: the future leaf type
`diams_at_least` passes for a fresh player. -/
theorem evalSimpleRule_unknown_passes_witness :
    ("diams_at_least" ≠ "level_at_least") ∧
    ("diams_at_least" ≠ "coins_at_least") ∧
    evalSimpleRule (GameState.mk 0 0 0 0 [] []) "diams_at_least" 3 =
      (true, Info.empty) :=
  ⟨by decide, by decide,
    evalSimpleRule_unknown_passes (GameState.mk 0 0 0 0 [] [])
      "diams_at_least" 3 (by decide) (by decide)⟩

lemma lookup_upsert {α : Type} (l : List (String × α)) (k : String) (v : α) :
    (upsert l k v).lookup k = some v := by
  induction l with
  | nil => simp [upsert, List.lookup]
  | cons e rest ih =>
    obtain ⟨k', v'⟩ := e
    by_cases h : k' = k
    · subst h
      simp [upsert, List.lookup]
    · simp only [upsert, if_neg h, List.lookup]
      cases hbe : k == k' with
      | true => exact absurd (eq_of_beq hbe) (Ne.symm h)
      | false => exact ih

lemma lookup_upsert_ne {α : Type} (l : List (String × α)) (k k' : String)
    (v : α) (h : k' ≠ k) : (upsert l k v).lookup k' = l.lookup k' := by
  induction l with
  | nil =>
    simp only [upsert, List.lookup]
    cases hbe : k' == k with
    | true => exact absurd (eq_of_beq hbe) h
    | false => rfl
  | cons e rest ih =>
    obtain ⟨k0, v0⟩ := e
    by_cases h0 : k0 = k
    · subst h0
      simp only [upsert, if_pos rfl, List.lookup]
      cases hbe : k' == k0 with
      | true => exact absurd (eq_of_beq hbe) h
      | false => rfl
    · simp only [upsert, if_neg h0, List.lookup]
      cases hbe : k' == k0 with
      | true => rfl
      | false => exact ih

lemma rndInt_intCast (m : ℤ) : rndInt (m : ℚ) = m := by
  unfold rndInt
  rw [Int.floor_intCast, if_pos (by norm_num)]

lemma rnd_idem (n : ℕ) (x : ℚ) : rnd n (rnd n x) = rnd n x := by
  unfold rnd
  rw [div_mul_cancel₀ _ (by positivity : (10 : ℚ) ^ n ≠ 0), rndInt_intCast]

lemma landApplyLoot_writes_rounded (resBoostsOf : String → List Boost)
    (mult : ℚ) (loot : List (String × ℚ)) :
    ∀ (p : GameState) (k : String) (q : ℚ),
      (landApplyLoot resBoostsOf mult p loot).stocks.lookup k = some q →
      p.stocks.lookup k = some q ∨ rnd 2 q = q := by
  induction loot with
  | nil => intro p k q h; exact Or.inl h
  | cons e rest ih =>
    intro p k q h
    simp only [landApplyLoot, List.foldl_cons] at h
    rcases ih _ k q h with hstep | hr
    · dsimp only at hstep
      by_cases hk : e.1 = k
      · subst hk
        rw [lookup_upsert] at hstep
        obtain rfl : rnd 2 _ = q := Option.some.inj hstep
        exact Or.inr (rnd_idem 2 _)
      · rw [lookup_upsert_ne _ _ _ _ (Ne.symm hk)] at hstep
        exact Or.inl hstep
    · exact Or.inr hr

/-- Counterexample to C6 as stated: the level-reward resource grant
`_grant_resource` stores the raw sum without rounding; granting 0.125 of a
resource to a fresh player stores 0.125, which is not a 2-decimal value
(its 2-decimal rounding is 0.12). -/
theorem grantResource_unrounded_write :
    (grantResource (GameState.mk 0 0 0 0 [] []) "wood" (1/8)).stocks.lookup "wood" =
      some (1/8 : ℚ) ∧
    rnd 2 (1/8) ≠ (1/8 : ℚ) := by
  constructor
  · norm_num [grantResource, upsert, List.lookup]
  · norm_num [rnd, rndInt]

/-- C6 (amended): the collect endpoints round every resource-stock write to
2 decimals — the tile branch writes the 2-decimal rounding of the previous
stock plus the computed collect amount, and every stock row touched by the
land-branch loot loop holds a 2-decimal value — but the level-reward grant
path (`_grant_resource`) stores the raw unrounded sum. -/
theorem stock_writes_rounding (st : GameState) (k : String) (a : ℚ)
    (resBoostsOf : String → List Boost) (mult : ℚ) (loot : List (String × ℚ))
    (env : Env) (cfg : Config) (resDefs : List (String × ResourceDefR))
    (xpBoosts cdBoosts resBoosts : List Boost) (now : ℚ) (tile : TileState)
    (p : GameState)
    (hk : k ≠ "") (ha : 0 < a) (hlock : tile.locked = false)
    (hready : ∀ cd ∈ tile.cooldownUntil, ¬ now < cd) (hres : tile.resource ≠ "") :
    (grantResource st k a).stocks.lookup k =
      some (((st.stocks.lookup k).getD 0) + a) ∧
    (∀ q, (landApplyLoot resBoostsOf mult st loot).stocks.lookup k = some q →
      st.stocks.lookup k = some q ∨ rnd 2 q = q) ∧
    ((collectTile env cfg resDefs xpBoosts cdBoosts resBoosts now
        tile p).2.2).stocks.lookup tile.resource =
      some (rnd 2
        ((((applyXpAndLevelUp env cfg p
              (computeXpGain 1 xpBoosts)).2.2.2).stocks.lookup
            tile.resource).getD 0 +
          computeCollectAmount resBoosts)) := by
  refine ⟨?_, fun q => landApplyLoot_writes_rounded resBoostsOf mult loot st k q, ?_⟩
  · unfold grantResource
    rw [if_neg (not_or.mpr ⟨hk, not_le.mpr ha⟩)]
    exact lookup_upsert st.stocks k _
  · unfold collectTile
    rw [hlock]
    rw [if_neg (by simp)]
    have hgo :
        (collectTileGo env cfg resDefs xpBoosts cdBoosts resBoosts now
            tile p).2.2.stocks.lookup tile.resource =
          some (rnd 2
            ((((applyXpAndLevelUp env cfg p
                  (computeXpGain 1 xpBoosts)).2.2.2).stocks.lookup
                tile.resource).getD 0 +
              computeCollectAmount resBoosts)) := by
      unfold collectTileGo
      dsimp only
      rw [if_neg hres]
      exact lookup_upsert _ tile.resource _
    cases hcd : tile.cooldownUntil with
    | none => exact hgo
    | some cd =>
      dsimp only
      rw [if_neg (hready cd (by rw [hcd]; rfl))]
      exact hgo

/-- Witness for the amended C6 at a concrete input: a grant of 0.125 wood,
a one-entry land loot roll, and a ready unlocked branch tile. -/
theorem stock_writes_rounding_witness :
    ("wood" ≠ "" ∧ (0 : ℚ) < 1/8 ∧
      (TileState.mk "branch" false none).locked = false ∧
      (∀ cd ∈ (TileState.mk "branch" false none).cooldownUntil, ¬ (5 : ℚ) < cd) ∧
      (TileState.mk "branch" false none).resource ≠ "") ∧
    ((grantResource stFresh "wood" (1/8)).stocks.lookup "wood" =
      some (((stFresh.stocks.lookup "wood").getD 0) + 1/8) ∧
    (∀ q, (landApplyLoot (fun _ => []) 1 stFresh [("shell", 2)]).stocks.lookup "wood" =
        some q →
      stFresh.stocks.lookup "wood" = some q ∨ rnd 2 q = q) ∧
    ((collectTile envEmpty cfgFallback [] [] [] [] 5
        (TileState.mk "branch" false none) stFresh).2.2).stocks.lookup
        (TileState.mk "branch" false none).resource =
      some (rnd 2
        ((((applyXpAndLevelUp envEmpty cfgFallback stFresh
              (computeXpGain 1 [])).2.2.2).stocks.lookup
            (TileState.mk "branch" false none).resource).getD 0 +
          computeCollectAmount []))) :=
  ⟨⟨by decide, by norm_num, rfl, by simp, by decide⟩,
    stock_writes_rounding stFresh "wood" (1/8) (fun _ => []) 1 [("shell", 2)]
      envEmpty cfgFallback [] [] [] [] 5 (TileState.mk "branch" false none)
      stFresh (by decide) (by norm_num) rfl (by simp) (by decide)⟩

/-- C8: a collect attempt on an unlocked tile whose `cooldown_until` lies
in the future is rejected with `on_cooldown` carrying the stored timestamp,
and the tile row and the whole player state (stock rows included) are
returned unchanged. -/
theorem collectTile_on_cooldown_no_effect (env : Env) (cfg : Config)
    (resDefs : List (String × ResourceDefR))
    (xpBoosts cdBoosts resBoosts : List Boost) (now : ℚ)
    (tile : TileState) (p : GameState) (cd : ℚ)
    (hlock : tile.locked = false) (hcd : tile.cooldownUntil = some cd)
    (hfuture : now < cd) :
    collectTile env cfg resDefs xpBoosts cdBoosts resBoosts now tile p =
      (.errOnCooldown cd, tile, p) := by
  unfold collectTile
  rw [hlock]
  rw [if_neg (by simp), hcd]
  dsimp only
  rw [if_pos hfuture]

/-- Witness for C8 at a concrete input: an unlocked branch tile cooling
down until t=20, collected at t=10. -/
theorem collectTile_on_cooldown_no_effect_witness :
    ((TileState.mk "branch" false (some 20)).locked = false ∧
      (TileState.mk "branch" false (some 20)).cooldownUntil = some 20 ∧
      (10 : ℚ) < 20) ∧
    collectTile envEmpty cfgFallback [] [] [] [] 10
        (TileState.mk "branch" false (some 20)) stFresh =
      (.errOnCooldown 20, TileState.mk "branch" false (some 20), stFresh) :=
  ⟨⟨rfl, rfl, by norm_num⟩,
    collectTile_on_cooldown_no_effect envEmpty cfgFallback [] [] [] [] 10
      (TileState.mk "branch" false (some 20)) stFresh 20 rfl rfl (by norm_num)⟩

/-- C10: if the player owns at least one `unlock_resource` card (qty > 0)
targeting the requested resource, and the resource has an enabled
definition, `unlock_tile` succeeds and creates an unlocked tile with no
cooldown, bypassing both the `unlock_min_level` check and the unlock-rules
evaluation (the theorem places no constraint on the player's level or on
the outcome of the rules). -/
theorem unlockTile_card_bypass (resDefs : List (String × ResourceDefR))
    (rows : List CardRow) (p : GameState) (resource : String)
    (rd : ResourceDefR) (hrd : getResDef resDefs resource = some rd)
    (hcard : hasUnlockResourceCard rows resource = true) :
    unlockTile resDefs rows p resource =
      .created ⟨resource, false, none⟩ := by
  have hne : resource ≠ "" := by
    intro h
    rw [h] at hrd
    simp [getResDef] at hrd
  unfold unlockTile
  rw [if_neg hne, hrd]
  dsimp only
  rw [if_pos hcard]

/-- Witness for C10 at a concrete input: resource `gold` requires level 5
and 100 coins, the fresh player (level 0, 0 coins) satisfies neither, yet
owns one `unlock_resource` card targeting `gold` and the unlock succeeds. -/
theorem unlockTile_card_bypass_witness :
    (getResDef
        [("gold", ResourceDefR.mk 5 10 (.all [.leaf "coins_at_least" 100]) true)]
        "gold" =
      some (ResourceDefR.mk 5 10 (.all [.leaf "coins_at_least" 100]) true) ∧
      hasUnlockResourceCard [CardRow.mk 1 (some "unlock_resource") (some "gold")]
        "gold" = true ∧
      stFresh.level < (ResourceDefR.mk 5 10 (.all [.leaf "coins_at_least" 100])
        true).unlockMinLevel ∧
      (checkUnlockRules stFresh
        (ResourceDefR.mk 5 10 (.all [.leaf "coins_at_least" 100])
          true).unlockRules).1 = false) ∧
    unlockTile
        [("gold", ResourceDefR.mk 5 10 (.all [.leaf "coins_at_least" 100]) true)]
        [CardRow.mk 1 (some "unlock_resource") (some "gold")] stFresh "gold" =
      .created ⟨"gold", false, none⟩ :=
  ⟨⟨rfl, by decide, by decide, by decide⟩,
    unlockTile_card_bypass
      [("gold", ResourceDefR.mk 5 10 (.all [.leaf "coins_at_least" 100]) true)]
      [CardRow.mk 1 (some "unlock_resource") (some "gold")] stFresh "gold"
      (ResourceDefR.mk 5 10 (.all [.leaf "coins_at_least" 100]) true) rfl
      (by decide)⟩

end LodyLand
